import Mathlib

/-!
Shallow embedding of the feedforward neural-network engine in
`src/lib/neural-network.js` (brain.js).

Modelling conventions:
* JavaScript numbers are modelled as rationals (`ℚ`).  `Math.exp` is an
  opaque external routine, so the forward pass is parametrised by a
  function `exp : ℚ → ℚ`; every theorem that needs a property of the
  real exponential (such as positivity) takes it as a hypothesis, which
  the real `exp` satisfies.
* JavaScript arrays are `List ℚ` (`Vec`); reading an array at an index
  is `getD` with default `0`, modelling that none of the verified
  executions reads a hole.  Array cells that the source leaves as holes
  (for example `biases[0]`, which is never assigned and never read) are
  represented by `[]` or `0`; no verified claim observes them.
* JavaScript objects used as ordered string-keyed maps are association
  lists; a key is either a canonical array index (`Key.num`) or a plain
  string (`Key.str`), mirroring how the source mixes `range(0, n)`
  indices with lookup-table keys.  Insertion order models JS object key
  order, which is exact as long as the symbolic keys are not canonical
  integer strings (the `lookupOK` well-formedness condition below).
* Mutation of `this` is explicit state passing on `NNState`.
-/

abbrev Vec := List ℚ

/-- JS `a[i]` read on a rational array (`0` stands for the unread hole). -/
def getQ (v : Vec) (i : ℕ) : ℚ := v.getD i 0

/-- JS `a[i]` read on an array of arrays. -/
def getV (m : List Vec) (i : ℕ) : Vec := m.getD i []

/-- JS `a[i]` read on an array of matrices. -/
def getM (w : List (List Vec)) (i : ℕ) : List Vec := w.getD i []

/-- In-place overwrite of the first `few.length` cells of `old`, as done by
a JS `for` loop writing `a[k] = ...` for `k = 0 .. few.length - 1`. -/
def overwriteL {α : Type} (old few : List α) : List α :=
  few ++ old.drop few.length

/-- `zeros(size)` (neural-network.js line 536). -/
def zerosV (n : ℕ) : Vec := List.replicate n 0

/-- `randomWeight()` = `Math.random() * 0.4 - 0.2` (line 527), applied to the
`i`-th value drawn from the random source. -/
def randomWeight (r : ℚ) : ℚ := r * (2/5) - 1/5

/-- `randos(size)` (line 549): the next `n` draws of the random source
`rand`, starting at draw number `start`, each passed through
`randomWeight`. -/
def randosFrom (rand : ℕ → ℚ) (start n : ℕ) : Vec :=
  (List.range n).map (fun i => randomWeight (rand (start + i)))

/-- JS `x || d` on numbers: `0` (the only falsy rational) falls back to `d`. -/
def jsOr (v d : ℚ) : ℚ := if v = 0 then d else v

/-- JS `x || d` where `x` is a possibly-absent (undefined) number option. -/
def jsOrQ (v : Option ℚ) (d : ℚ) : ℚ :=
  match v with
  | none => d
  | some x => jsOr x d

/-- JS `x || d` for a possibly-absent natural-valued option. -/
def jsOrN (v : Option ℕ) (d : ℕ) : ℕ :=
  match v with
  | none => d
  | some x => if x = 0 then d else x

/-- `mse(errors)` (line 562): `(1/n) Σ errors[i]^2`.  (On an empty vector the
source divides by zero and produces `NaN`; in `ℚ` this is `0`.  No claim
evaluates `mse` on an empty vector.) -/
def mse (errs : Vec) : ℚ :=
  ((List.range errs.length).foldl (fun s i => s + getQ errs i ^ 2) 0) / errs.length

/-- `max(values)` (line 603): maximum of a numeric array.  (JS gives
`-Infinity` on an empty array; modelled as `0`, never hit by a claim.) -/
def maxQ (v : Vec) : ℚ :=
  match v with
  | [] => 0
  | h :: t => t.foldl max h

/-- `values.indexOf(max(values))`, the arg-max with ties broken by the first
occurrence (lines 317-318). -/
def argmaxJS (v : Vec) : ℕ := v.indexOf (maxQ v)

/-- The mutable state of a `NeuralNetwork` instance (constructor, lines
11-29).  `null` fields of a fresh instance are `[]` / `none`. -/
structure NNState where
  learningRate : ℚ := 3/10
  momentum : ℚ := 1/10
  hiddenSizes : Option (List ℕ) := none
  binaryThresh : ℚ := 1/2
  sizes : List ℕ := []
  biases : List Vec := []
  weights : List (List Vec) := []
  outputs : List Vec := []
  deltas : List Vec := []
  changes : List (List Vec) := []
  errors : List Vec := []
  inputLookup : Option (List String) := none
  outputLookup : Option (List String) := none
deriving DecidableEq

/-- `this.outputLayer`, always assigned `sizes.length - 1` (lines 39, 452). -/
def NNState.outLayer (st : NNState) : ℕ := st.sizes.length - 1

/-- Constructor options (lines 11-17). -/
structure CtorOptions where
  learningRate : Option ℚ := none
  momentum : Option ℚ := none
  hiddenLayers : Option (List ℕ) := none
  binaryThresh : Option ℚ := none
deriving DecidableEq

/-- `new NeuralNetwork(options)` (lines 11-29). -/
def mkNetwork (o : CtorOptions) : NNState :=
  { learningRate := jsOrQ o.learningRate (3/10),
    momentum := jsOrQ o.momentum (1/10),
    hiddenSizes := o.hiddenLayers,
    binaryThresh := jsOrQ o.binaryThresh (1/2),
    sizes := [], biases := [], weights := [], outputs := [],
    deltas := [], changes := [], errors := [],
    inputLookup := none, outputLookup := none }

/-- Number of `Math.random()` draws consumed by `initialize` for one layer:
layer `0` draws nothing; layer `l ≥ 1` draws `sizes[l]` bias values and,
when the network is not kept intact, `sizes[l] * sizes[l-1]` weight
values (lines 60-73). -/
def layerConsume (keep : Bool) (sizes : List ℕ) (l : ℕ) : ℕ :=
  if l = 0 then 0
  else sizes.getD l 0 + (if keep then 0 else sizes.getD l 0 * sizes.getD (l - 1) 0)

/-- Draws consumed before layer `l` is processed. -/
def consumedBefore (keep : Bool) (sizes : List ℕ) (l : ℕ) : ℕ :=
  ((List.range l).map (layerConsume keep sizes)).sum

/-- `initialize(sizes, keepNetworkIntact)` (lines 37-76).  The random source
is the explicit draw sequence `rand`.  Note that the per-layer bias
assignment `this.biases[layer] = randos(size)` (line 61) is NOT guarded by
`keepNetworkIntact`, while the weight assignments are. -/
def initNet (rand : ℕ → ℚ) (sizes : List ℕ) (keep : Bool) (st : NNState) : NNState :=
  let n := sizes.length
  { st with
    sizes := sizes,
    deltas := (List.range n).map (fun l => zerosV (sizes.getD l 0)),
    errors := (List.range n).map (fun l => zerosV (sizes.getD l 0)),
    outputs := if keep then st.outputs
               else (List.range n).map (fun l => zerosV (sizes.getD l 0)),
    changes := (List.range n).map (fun l =>
      if l = 0 then []
      else (List.range (sizes.getD l 0)).map (fun _ => zerosV (sizes.getD (l - 1) 0))),
    biases := (List.range n).map (fun l =>
      if l = 0 then (if keep then getV st.biases 0 else [])
      else randosFrom rand (consumedBefore keep sizes l) (sizes.getD l 0)),
    weights := if keep then st.weights
               else (List.range n).map (fun l =>
      if l = 0 then []
      else (List.range (sizes.getD l 0)).map (fun node =>
        randosFrom rand
          (consumedBefore keep sizes l + sizes.getD l 0 + node * sizes.getD (l - 1) 0)
          (sizes.getD (l - 1) 0))) }

/-- `sigmoid(sum) = 1 / (1 + Math.exp(-sum))` (line 112). -/
def sigmoid (exp : ℚ → ℚ) (x : ℚ) : ℚ := 1 / (1 + exp (-x))

/-- The weighted sum of one unit (lines 108-111): bias plus
`Σ_{k < weights.length} weights[k] * input[k]`, accumulated left to right
exactly as the source loop does. -/
def nodeSum (ws inp : Vec) (b : ℚ) : ℚ :=
  (List.range ws.length).foldl (fun s k => s + getQ ws k * getQ inp k) b

/-- One layer of the forward pass (lines 104-115): unit `node` of layer `l`
computes `sigmoid` of its weighted sum over the previous layer's
activation vector `inp`. -/
def layerForward (exp : ℚ → ℚ) (st : NNState) (l : ℕ) (inp : Vec) : Vec :=
  (List.range (st.sizes.getD l 0)).map (fun node =>
    sigmoid exp (nodeSum (getV (getM st.weights l) node) inp
      (getQ (getV st.biases l) node)))

/-- The activation vector of layer `l` during `runInput(input)`: layer `0`
is the raw input (line 102), each later layer feeds the previous one
through `layerForward` (the source's reassignment `input = this.outputs[layer]`). -/
def act (exp : ℚ → ℚ) (st : NNState) (input : Vec) : ℕ → Vec
  | 0 => input
  | l + 1 => layerForward exp st (l + 1) (act exp st input l)

/-- `runInput(input)` (lines 101-117): stores every layer's activation in
`this.outputs` and returns the final layer's activation vector. -/
def runInput (exp : ℚ → ℚ) (st : NNState) (input : Vec) : NNState × Vec :=
  ({ st with outputs := (List.range st.sizes.length).map (act exp st input) },
   act exp st input st.outLayer)

/-- The error/delta backward sweep of `calculateDeltas(target)` (lines
200-218), written from the top layer down; the argument `d` is the
distance `outputLayer - layer` below the output layer.  Returns the pair
(errors, deltas) of layer `outputLayer - d`. -/
def edPass (st : NNState) (target : Vec) : ℕ → Vec × Vec
  | 0 =>
    let L := st.outLayer
    let o := getV st.outputs L
    let errs := (List.range (st.sizes.getD L 0)).map (fun node =>
      getQ target node - getQ o node)
    (errs, (List.range (st.sizes.getD L 0)).map (fun node =>
      getQ errs node * getQ o node * (1 - getQ o node)))
  | d + 1 =>
    let l := st.outLayer - (d + 1)
    let o := getV st.outputs l
    let next := (edPass st target d).2
    let errs := (List.range (st.sizes.getD l 0)).map (fun node =>
      (List.range next.length).foldl (fun s k =>
        s + getQ next k * getQ (getV (getM st.weights (l + 1)) k) node) 0)
    (errs, (List.range (st.sizes.getD l 0)).map (fun node =>
      getQ errs node * getQ o node * (1 - getQ o node)))

/-- `calculateDeltas(target)` (lines 200-219): overwrites `this.errors` and
`this.deltas` for every layer `0 .. outputLayer`. -/
def calculateDeltas (st : NNState) (target : Vec) : NNState :=
  { st with
    errors := (List.range st.sizes.length).map (fun l =>
      (edPass st target (st.outLayer - l)).1),
    deltas := (List.range st.sizes.length).map (fun l =>
      (edPass st target (st.outLayer - l)).2) }

/-- The new momentum-change row for unit `j` of a layer (lines 233-238):
`change = learningRate * delta * incoming[k] + momentum * change`. -/
def changeRow (momentum lr delta : ℚ) (incoming oldRow : Vec) : Vec :=
  (List.range incoming.length).map (fun k =>
    lr * delta * getQ incoming k + momentum * getQ oldRow k)

/-- `adjustWeights(learningRate)` (lines 225-244).  Layers `1 ..
outputLayer` are updated; row/vector cells beyond the loop bounds are left
untouched (`overwriteL`). -/
def adjustWeights (st : NNState) (lr : ℚ) : NNState :=
  let n := st.sizes.length
  { st with
    changes := (List.range n).map (fun l =>
      if 1 ≤ l then
        overwriteL (getM st.changes l) ((List.range (st.sizes.getD l 0)).map (fun j =>
          overwriteL (getV (getM st.changes l) j)
            (changeRow st.momentum lr (getQ (getV st.deltas l) j)
              (getV st.outputs (l - 1)) (getV (getM st.changes l) j))))
      else getM st.changes l),
    weights := (List.range n).map (fun l =>
      if 1 ≤ l then
        overwriteL (getM st.weights l) ((List.range (st.sizes.getD l 0)).map (fun j =>
          overwriteL (getV (getM st.weights l) j)
            ((List.range (getV st.outputs (l - 1)).length).map (fun k =>
              getQ (getV (getM st.weights l) j) k +
                getQ (changeRow st.momentum lr (getQ (getV st.deltas l) j)
                  (getV st.outputs (l - 1)) (getV (getM st.changes l) j)) k))))
      else getM st.weights l),
    biases := (List.range n).map (fun l =>
      if 1 ≤ l then
        overwriteL (getV st.biases l) ((List.range (st.sizes.getD l 0)).map (fun j =>
          getQ (getV st.biases l) j + lr * getQ (getV st.deltas l) j))
      else getV st.biases l) }

/-- `trainPattern(input, target, learningRate)` (lines 182-194): forward
pass, delta pass, weight update, then the mean squared error of the output
layer's error vector. -/
def trainPattern (exp : ℚ → ℚ) (st : NNState) (input target : Vec)
    (lrOpt : Option ℚ) : NNState × ℚ :=
  let lr := match lrOpt with
    | none => st.learningRate
    | some v => jsOr v st.learningRate
  let st1 := (runInput exp st input).1
  let st2 := calculateDeltas st1 target
  let st3 := adjustWeights st2 lr
  (st3, mse (getV st3.errors st3.outLayer))

/-- Options of `train(data, options)` (lines 128-135).  `log` and
`callback` are only observational hooks (the source never lets them feed
back into the numbers), so only their presence is recorded. -/
structure TrainOptions where
  iterations : Option ℕ := none
  errorThresh : Option ℚ := none
  log : Bool := false
  logPeriod : Option ℕ := none
  learningRate : Option ℚ := none
  callback : Bool := false
  callbackPeriod : Option ℕ := none
  keepNetworkIntact : Bool := false
deriving DecidableEq

/-- The topology derived by `train` (lines 136-149):
`[inputSize, ...hidden, outputSize]`, where the hidden sizes default to the
single heuristic layer `max(3, floor(inputSize / 2))` when none are
configured. -/
def trainSizes (st : NNState) (data : List (Vec × Vec)) : List ℕ :=
  let inputSize := (data.headD ([], [])).1.length
  let outputSize := (data.headD ([], [])).2.length
  let hidden := match st.hiddenSizes with
    | none => [max 3 (inputSize / 2)]
    | some hs => hs
  inputSize :: (hidden ++ [outputSize])

/-- One epoch of the training loop (lines 155-160): `trainPattern` over
every example, then the mean of the per-example errors.  (Division by zero
on an empty dataset is JS `NaN`, modelled `0`; no claim trains on empty
data.) -/
def epoch (exp : ℚ → ℚ) (data : List (Vec × Vec)) (lr : ℚ) (st : NNState) :
    NNState × ℚ :=
  let r := data.foldl (fun (p : NNState × ℚ) d =>
    let q := trainPattern exp p.1 d.1 d.2 (some lr)
    (q.1, p.2 + q.2)) (st, 0)
  (r.1, r.2 / data.length)

/-- The `for (i = 0; i < iterations && error > errorThresh; i++)` loop of
`train` (lines 153-168), with `fuel = iterations - i` making termination
structural.  Returns (state, error, i). -/
def trainLoop (exp : ℚ → ℚ) (data : List (Vec × Vec)) (lr thresh : ℚ) :
    ℕ → ℕ → ℚ → NNState → NNState × ℚ × ℕ
  | 0, i, error, st => (st, error, i)
  | fuel + 1, i, error, st =>
    if thresh < error then
      let p := epoch exp data lr st
      trainLoop exp data lr thresh fuel (i + 1) p.2 p.1
    else (st, error, i)

/-- The state and epoch error after `k` full epochs starting from `st0`
(error starts at `1`, line 153). -/
def runEpochs (exp : ℚ → ℚ) (data : List (Vec × Vec)) (lr : ℚ)
    (st0 : NNState) : ℕ → NNState × ℚ
  | 0 => (st0, 1)
  | k + 1 => epoch exp data lr (runEpochs exp data lr st0 k).1

/-- `train(data, options)` (lines 125-174) on already-numeric data (for
dense numeric vectors `formatData`, lines 251-279, is the identity).
Returns (state, error, iterations). -/
def train (exp : ℚ → ℚ) (rand : ℕ → ℚ) (st : NNState)
    (data : List (Vec × Vec)) (o : TrainOptions) : NNState × ℚ × ℕ :=
  let iterations := jsOrN o.iterations 20000
  let errorThresh := jsOrQ o.errorThresh (1/200)
  let logPeriod := jsOrN o.logPeriod 10
  let learningRate := jsOrQ o.learningRate (jsOr st.learningRate (3/10))
  let callbackPeriod := jsOrN o.callbackPeriod 10
  let _ := logPeriod
  let _ := callbackPeriod
  let st1 := initNet rand (trainSizes st data) o.keepNetworkIntact st
  trainLoop exp data learningRate errorThresh iterations 0 1 st1

/-- A misclassified example as pushed by `test` (lines 321-328): the datum
augmented with its `actual` and `expected` labels. -/
structure Misclass where
  input : Vec
  output : Vec
  actual : ℚ
  expected : ℚ
deriving DecidableEq

/-- The running accumulator of `test`'s loop (lines 296-306). -/
structure TestAcc where
  sum : ℚ
  misclasses : List Misclass
  trueNeg : ℕ
  truePos : ℕ
  falseNeg : ℕ
  falsePos : ℕ
deriving DecidableEq

/-- The statistics object returned by `test` (lines 352-369).  The source
attaches the confusion fields only in the binary branch; here `isBinary`
records which branch was taken and the extra fields are meaningful only
when it is true.  `precision`/`recall` with a zero denominator are JS
`NaN`, modelled `0`. -/
structure TestStats where
  error : ℚ
  misclasses : List Misclass
  isBinary : Bool
  trueNeg : ℕ
  truePos : ℕ
  falseNeg : ℕ
  falsePos : ℕ
  total : ℕ
  precision : ℚ
  recall' : ℚ
  accuracy : ℚ
deriving DecidableEq

/-- The `actual` label of one example (lines 312-318): in the binary branch
`output[0] > this.binaryThresh ? 1 : 0`, otherwise the arg-max index. -/
def testActualQ (st : NNState) (isB : Bool) (output : Vec) : ℚ :=
  if isB then (if st.binaryThresh < getQ output 0 then 1 else 0)
  else (argmaxJS output : ℚ)

/-- The `expected` label of one example (lines 314, 318). -/
def testExpected (isB : Bool) (target : Vec) : ℚ :=
  if isB then getQ target 0 else (argmaxJS target : ℚ)

/-- The per-example error vector of `test` (lines 345-347):
`output.map((value, i) => target[i] - value)`. -/
def errVec (target output : Vec) : Vec :=
  (List.range output.length).map (fun i => getQ target i - getQ output i)

/-- One iteration of `test`'s loop body (lines 307-349). -/
def testStep (exp : ℚ → ℚ) (st : NNState) (isB : Bool) (acc : TestAcc)
    (d : Vec × Vec) : TestAcc :=
  let output := (runInput exp st d.1).2
  let actual := testActualQ st isB output
  let expected := testExpected isB d.2
  { sum := acc.sum + mse (errVec d.2 output),
    misclasses := if actual ≠ expected
      then acc.misclasses ++ [⟨d.1, d.2, actual, expected⟩]
      else acc.misclasses,
    trueNeg := acc.trueNeg + (if isB ∧ actual = 0 ∧ expected = 0 then 1 else 0),
    truePos := acc.truePos + (if isB ∧ actual = 1 ∧ expected = 1 then 1 else 0),
    falseNeg := acc.falseNeg + (if isB ∧ actual = 0 ∧ expected = 1 then 1 else 0),
    falsePos := acc.falsePos + (if isB ∧ actual = 1 ∧ expected = 0 then 1 else 0) }

/-- `test`'s loop over the dataset (lines 307-349). -/
def testLoop (exp : ℚ → ℚ) (st : NNState) (isB : Bool) :
    List (Vec × Vec) → TestAcc → TestAcc
  | [], acc => acc
  | d :: rest, acc => testLoop exp st isB rest (testStep exp st isB acc d)

/-- `test(data)` (lines 291-370) on already-numeric data.  `test` only runs
forward passes, so the weights it reads never change and each example's
output depends only on the incoming state. -/
def test (exp : ℚ → ℚ) (st : NNState) (data : List (Vec × Vec)) : TestStats :=
  let isB := (data.headD ([], [])).2.length = 1
  let acc := testLoop exp st isB data ⟨0, [], 0, 0, 0, 0⟩
  { error := acc.sum / data.length,
    misclasses := acc.misclasses,
    isBinary := isB,
    trueNeg := acc.trueNeg,
    truePos := acc.truePos,
    falseNeg := acc.falseNeg,
    falsePos := acc.falsePos,
    total := data.length,
    precision := (acc.truePos : ℚ) / ((acc.truePos : ℚ) + (acc.falsePos : ℚ)),
    recall' := (acc.truePos : ℚ) / ((acc.truePos : ℚ) + (acc.falseNeg : ℚ)),
    accuracy := ((acc.trueNeg : ℚ) + (acc.truePos : ℚ)) / data.length }

/-- A JS object key as used by `toJSON`/`fromJSON`: either a canonical
array index (a `range(0, n)` entry, which JS stringifies) or a symbolic
lookup-table key. -/
inductive Key where
  | num : ℕ → Key
  | str : String → Key
deriving DecidableEq

/-- The property-name string a `Key` denotes. -/
def keyStr : Key → String
  | .num n => toString n
  | .str s => s

/-- One unit record of the serialized document (lines 425-439): layer-0
units are bare `{}` objects (no bias, no weights). -/
structure JsonNode where
  bias : Option ℚ
  weights : List (Key × ℚ)
deriving DecidableEq

/-- One serialized layer: a JS object mapping unit identifiers to unit
records, modelled as an insertion-ordered association list with distinct
keys. -/
abbrev JsonLayer := List (Key × JsonNode)

/-- The document produced by `toJSON` (line 442). -/
structure NetJson where
  layers : List JsonLayer
  inputLookup : Bool
  outputLookup : Bool
deriving DecidableEq

/-- The unit identifiers of layer `l` in `toJSON` (lines 413-423): lookup
keys for a keyed boundary layer, `range(0, sizes[l])` otherwise. -/
def nodeIds (st : NNState) (l : ℕ) : List Key :=
  if l = 0 ∧ st.inputLookup.isSome then (st.inputLookup.getD []).map Key.str
  else if l = st.outLayer ∧ st.outputLookup.isSome then
    (st.outputLookup.getD []).map Key.str
  else (List.range (st.sizes.getD l 0)).map Key.num

/-- The serialized weight of unit `j` of layer `l` against previous-layer
identifier `k` (lines 432-437): `index` is `inputLookup[k]` for layer 1 of
a keyed input, else the key itself used as an array subscript (JS coerces
a canonical index string back to its number; a non-index string yields
`undefined`, modelled `0` and never produced by this library). -/
def jsonWeightVal (st : NNState) (l j : ℕ) (k : Key) : ℚ :=
  let row := getV (getM st.weights l) j
  if l = 1 ∧ st.inputLookup.isSome then
    getQ row ((st.inputLookup.getD []).indexOf (keyStr k))
  else
    match k with
    | .num n => getQ row n
    | .str s =>
      match s.toNat? with
      | some n => getQ row n
      | none => 0

/-- The serialized record of unit `j` in layer `l` (lines 427-439): layer-0
units are bare objects; other units carry their bias and the weights hash
keyed by the previous layer's identifiers. -/
def jsonNodeOf (st : NNState) (l j : ℕ) : JsonNode :=
  if l = 0 then { bias := none, weights := [] }
  else
    { bias := some (getQ (getV st.biases l) j),
      weights := (nodeIds st (l - 1)).map (fun k => (k, jsonWeightVal st l j k)) }

/-- One serialized layer (lines 410-440): the identifier of position `j`
paired with its unit record, in identifier order. -/
def jsonLayerOf (st : NNState) (l : ℕ) : JsonLayer :=
  (List.range (nodeIds st l).length).map (fun j =>
    ((nodeIds st l).getD j (Key.num 0), jsonNodeOf st l j))

/-- `toJSON()` (lines 408-443). -/
def toJSON (st : NNState) : NetJson :=
  { layers := (List.range (st.outLayer + 1)).map (jsonLayerOf st),
    inputLookup := st.inputLookup.isSome,
    outputLookup := st.outputLookup.isSome }

/-- Modelled from the spec: `lookup.lookupFromHash(hash)` lives in
`lib/lookup.js`, which is not part of the given sources.  Per §4.6/§4.7 of
the spec a lookup table is "an ordered, stable mapping from symbolic key
to dense index" whose "indices are a dense permutation of `0..count-1` in
first-seen order", so rebuilding one from a serialized layer object takes
the layer's property names in order; the table is modelled as that key
list (the index of a key is its position). -/
def lookupFromLayer (layer : JsonLayer) : List String :=
  layer.map (fun p => keyStr p.1)

/-- Does the JS object modelled by `layer` own a property named `"0"`
(the `layer[0]` truthiness test of lines 461, 464)? -/
def hasZeroKey (layer : JsonLayer) : Bool :=
  (layer.lookup (Key.num 0)).isSome || (layer.lookup (Key.str "0")).isSome

/-- `fromJSON(json)` (lines 450-481).  `toArray` on a weights hash (line
477, helper at line 589) takes the hash's values in property order, i.e.
the association list's values in order; reading the absent `bias` of a
layer-0 unit record gives JS `undefined` (stored but never read; modelled
`0`). -/
def fromJSON (st : NNState) (json : NetJson) : NNState :=
  let size := json.layers.length
  let L := size - 1
  let layerAt := fun i => json.layers.getD i []
  { st with
    sizes := (List.range size).map (fun i => (layerAt i).length),
    weights := (List.range size).map (fun i =>
      (layerAt i).map (fun p => p.2.weights.map Prod.snd)),
    biases := (List.range size).map (fun i =>
      (layerAt i).map (fun p => (p.2.bias).getD 0)),
    outputs := (List.range size).map (fun _ => []),
    inputLookup := if ¬ hasZeroKey (layerAt 0) ∨ json.inputLookup
      then some (lookupFromLayer (layerAt 0)) else st.inputLookup,
    outputLookup := if L ≠ 0 ∧ (¬ hasZeroKey (layerAt L) ∨ json.outputLookup)
      then some (lookupFromLayer (layerAt L)) else st.outputLookup }

/-- A decimal digit character. -/
def isDigitCh (c : Char) : Bool := 48 ≤ c.toNat ∧ c.toNat ≤ 57

/-- Is `s` the canonical decimal string of some array index (nonempty, all
digits, no leading zero except `"0"` itself)?  For such keys JS object
insertion order would not be preserved, and subscripting coerces them back
to numbers. -/
def isIndexString (s : String) : Bool :=
  match s.data with
  | [] => false
  | [c] => isDigitCh c
  | c :: rest => isDigitCh c && decide (c ≠ '0') && rest.all isDigitCh

/-- Well-formedness of a lookup table of width `n`: as many keys as layer
units, no duplicates, and no key that JS would treat as an array index. -/
def lookupOK : Option (List String) → ℕ → Prop
  | none, _ => True
  | some keys, n =>
    keys.length = n ∧ keys.Nodup ∧ ∀ s ∈ keys, isIndexString s = false

instance (o : Option (List String)) (n : ℕ) : Decidable (lookupOK o n) :=
  match o with
  | none => isTrue trivial
  | some _ => inferInstanceAs (Decidable (_ ∧ _ ∧ _))

/-- Structural well-formedness of loaded parameters: at least two layers,
parameter arrays sized to the topology. -/
def WFDims (st : NNState) : Prop :=
  2 ≤ st.sizes.length ∧
  st.biases.length = st.sizes.length ∧
  st.weights.length = st.sizes.length ∧
  ∀ l, l < st.sizes.length → 1 ≤ l →
    (getV st.biases l).length = st.sizes.getD l 0 ∧
    (getM st.weights l).length = st.sizes.getD l 0 ∧
    ∀ j, j < st.sizes.getD l 0 →
      (getV (getM st.weights l) j).length = st.sizes.getD (l - 1) 0

instance (st : NNState) : Decidable (WFDims st) :=
  inferInstanceAs (Decidable (_ ∧ _ ∧ _ ∧ _))

/-- A network "with loaded parameters" in the sense of the serialization
claim: valid sizes, weights, biases, and optional input/output lookup
tables consistent with the boundary widths. -/
def WFNet (st : NNState) : Prop :=
  WFDims st ∧
  (∀ l, l < st.sizes.length → 0 < st.sizes.getD l 0) ∧
  lookupOK st.inputLookup (st.sizes.getD 0 0) ∧
  lookupOK st.outputLookup (st.sizes.getD (st.sizes.length - 1) 0)

instance (st : NNState) : Decidable (WFNet st) :=
  inferInstanceAs (Decidable (_ ∧ _ ∧ _ ∧ _))

lemma getD_map_range {α : Type} (d : α) (f : ℕ → α) {n i : ℕ} (h : i < n) :
    ((List.range n).map f).getD i d = f i := by
  rw [List.getD_eq_getElem?_getD, List.getElem?_map, List.getElem?_range h]
  rfl

lemma getQ_map_range (f : ℕ → ℚ) {n i : ℕ} (h : i < n) :
    getQ ((List.range n).map f) i = f i := getD_map_range 0 f h

lemma getV_map_range (f : ℕ → Vec) {n i : ℕ} (h : i < n) :
    getV ((List.range n).map f) i = f i := getD_map_range [] f h

lemma getM_map_range (f : ℕ → List Vec) {n i : ℕ} (h : i < n) :
    getM ((List.range n).map f) i = f i := getD_map_range [] f h

lemma map_range_getD {α : Type} (d : α) (v : List α) :
    (List.range v.length).map (fun i => v.getD i d) = v := by
  apply List.ext_getElem (by simp)
  intro i h1 h2
  simp only [List.getElem_map, List.getElem_range]
  exact List.getD_eq_getElem v d h2

lemma getD_overwriteL {α : Type} (d : α) (old few : List α) {i : ℕ}
    (h : i < few.length) : (overwriteL old few).getD i d = few.getD i d :=
  List.getD_append few _ d i h

lemma foldl_add_range (f : ℕ → ℚ) (b : ℚ) (n : ℕ) :
    (List.range n).foldl (fun s k => s + f k) b = b + ∑ k ∈ Finset.range n, f k := by
  induction n with
  | zero => simp
  | succ m ih => rw [List.range_succ, List.foldl_append, ih, Finset.sum_range_succ]; simp; ring

lemma map_indexOf_self {α β : Type} [DecidableEq α] (keys : List α) (g : ℕ → β)
    (hn : keys.Nodup) :
    keys.map (fun s => g (keys.indexOf s)) = (List.range keys.length).map g := by
  apply List.ext_getElem (by simp)
  intro i h1 h2
  simp only [List.getElem_map, List.getElem_range]
  rw [List.indexOf_getElem hn]

/-- The forward-pass output `test` computes for one example. -/
def classifyActual (exp : ℚ → ℚ) (st : NNState) (isB : Bool) (d : Vec × Vec) : ℚ :=
  testActualQ st isB ((runInput exp st d.1).2)

/-- The target label `test` computes for one example. -/
def classifyExpected (isB : Bool) (d : Vec × Vec) : ℚ :=
  testExpected isB d.2

/-- The misclassification record `test` pushes for one example, if any. -/
def testMisFn (exp : ℚ → ℚ) (st : NNState) (isB : Bool) (d : Vec × Vec) :
    Option Misclass :=
  if classifyActual exp st isB d ≠ classifyExpected isB d
  then some ⟨d.1, d.2, classifyActual exp st isB d, classifyExpected isB d⟩
  else none

lemma testLoop_misclasses (exp : ℚ → ℚ) (st : NNState) (isB : Bool) :
    ∀ (data : List (Vec × Vec)) (acc : TestAcc),
      (testLoop exp st isB data acc).misclasses =
        acc.misclasses ++ data.filterMap (testMisFn exp st isB)
  | [], acc => by simp [testLoop]
  | d :: rest, acc => by
    rw [testLoop, testLoop_misclasses exp st isB rest, List.filterMap_cons]
    have hstep : (testStep exp st isB acc d).misclasses =
        if classifyActual exp st isB d ≠ classifyExpected isB d
        then acc.misclasses ++ [⟨d.1, d.2, classifyActual exp st isB d,
          classifyExpected isB d⟩]
        else acc.misclasses := rfl
    rw [hstep, testMisFn]
    by_cases h : classifyActual exp st isB d ≠ classifyExpected isB d
    · rw [if_pos h, if_pos h]
      simp
    · rw [if_neg h, if_neg h]

lemma testLoop_truePos (exp : ℚ → ℚ) (st : NNState) (isB : Bool) :
    ∀ (data : List (Vec × Vec)) (acc : TestAcc),
      (testLoop exp st isB data acc).truePos =
        acc.truePos + data.countP (fun d =>
          decide ((isB : Prop) ∧ classifyActual exp st isB d = 1 ∧
            classifyExpected isB d = 1))
  | [], acc => by simp [testLoop]
  | d :: rest, acc => by
    rw [testLoop, testLoop_truePos exp st isB rest, List.countP_cons]
    have hstep : (testStep exp st isB acc d).truePos =
        acc.truePos + (if (isB : Prop) ∧ classifyActual exp st isB d = 1 ∧
          classifyExpected isB d = 1 then 1 else 0) := rfl
    rw [hstep]
    simp only [decide_eq_true_eq]
    by_cases h : (isB : Prop) ∧ classifyActual exp st isB d = 1 ∧
      classifyExpected isB d = 1
    · rw [if_pos h]; omega
    · rw [if_neg h]; omega

lemma testLoop_trueNeg (exp : ℚ → ℚ) (st : NNState) (isB : Bool) :
    ∀ (data : List (Vec × Vec)) (acc : TestAcc),
      (testLoop exp st isB data acc).trueNeg =
        acc.trueNeg + data.countP (fun d =>
          decide ((isB : Prop) ∧ classifyActual exp st isB d = 0 ∧
            classifyExpected isB d = 0))
  | [], acc => by simp [testLoop]
  | d :: rest, acc => by
    rw [testLoop, testLoop_trueNeg exp st isB rest, List.countP_cons]
    have hstep : (testStep exp st isB acc d).trueNeg =
        acc.trueNeg + (if (isB : Prop) ∧ classifyActual exp st isB d = 0 ∧
          classifyExpected isB d = 0 then 1 else 0) := rfl
    rw [hstep]
    simp only [decide_eq_true_eq]
    by_cases h : (isB : Prop) ∧ classifyActual exp st isB d = 0 ∧
      classifyExpected isB d = 0
    · rw [if_pos h]; omega
    · rw [if_neg h]; omega

lemma testLoop_falseNeg (exp : ℚ → ℚ) (st : NNState) (isB : Bool) :
    ∀ (data : List (Vec × Vec)) (acc : TestAcc),
      (testLoop exp st isB data acc).falseNeg =
        acc.falseNeg + data.countP (fun d =>
          decide ((isB : Prop) ∧ classifyActual exp st isB d = 0 ∧
            classifyExpected isB d = 1))
  | [], acc => by simp [testLoop]
  | d :: rest, acc => by
    rw [testLoop, testLoop_falseNeg exp st isB rest, List.countP_cons]
    have hstep : (testStep exp st isB acc d).falseNeg =
        acc.falseNeg + (if (isB : Prop) ∧ classifyActual exp st isB d = 0 ∧
          classifyExpected isB d = 1 then 1 else 0) := rfl
    rw [hstep]
    simp only [decide_eq_true_eq]
    by_cases h : (isB : Prop) ∧ classifyActual exp st isB d = 0 ∧
      classifyExpected isB d = 1
    · rw [if_pos h]; omega
    · rw [if_neg h]; omega

lemma testLoop_falsePos (exp : ℚ → ℚ) (st : NNState) (isB : Bool) :
    ∀ (data : List (Vec × Vec)) (acc : TestAcc),
      (testLoop exp st isB data acc).falsePos =
        acc.falsePos + data.countP (fun d =>
          decide ((isB : Prop) ∧ classifyActual exp st isB d = 1 ∧
            classifyExpected isB d = 0))
  | [], acc => by simp [testLoop]
  | d :: rest, acc => by
    rw [testLoop, testLoop_falsePos exp st isB rest, List.countP_cons]
    have hstep : (testStep exp st isB acc d).falsePos =
        acc.falsePos + (if (isB : Prop) ∧ classifyActual exp st isB d = 1 ∧
          classifyExpected isB d = 0 then 1 else 0) := rfl
    rw [hstep]
    simp only [decide_eq_true_eq]
    by_cases h : (isB : Prop) ∧ classifyActual exp st isB d = 1 ∧
      classifyExpected isB d = 0
    · rw [if_pos h]; omega
    · rw [if_neg h]; omega

/-- A concrete stand-in for `Math.exp` used to evaluate witnesses; it
agrees with the real exponential at `0`, the only point where these
witnesses sample it, and is everywhere positive. -/
def constOne : ℚ → ℚ := fun _ => 1

/-- A concrete random source drawing `0` forever. -/
def rZero : ℕ → ℚ := fun _ => 0

/-- A concrete random source drawing `1` forever. -/
def rOne : ℕ → ℚ := fun _ => 1

/-- A tiny concrete network: one input, one output, zero weight and bias,
so its forward output is exactly `sigmoid(0) = 1/2` on any input. -/
def netHalf : NNState :=
  { sizes := [1, 1], weights := [[], [[0]]], biases := [[], [0]] }

/-- C10: at the public interface, passing the numeric value `0` for any of
the numeric options — `iterations`, `errorThresh`, `logPeriod`,
`callbackPeriod`, `learningRate` of `train`, and `learningRate`,
`momentum`, `binaryThresh` of the constructor — is indistinguishable from
omitting the option, because every one of them is read through JS `||`,
for which `0` is falsy: the default is used instead (`iterations: 0`
resolves to 20000, a constructor `learningRate: 0` behaves as 0.3). -/
theorem C10_zero_options_use_defaults :
    (∀ exp rand st data (o : TrainOptions),
      train exp rand st data { o with iterations := some 0 } =
        train exp rand st data { o with iterations := none }) ∧
    (∀ exp rand st data (o : TrainOptions),
      train exp rand st data { o with errorThresh := some 0 } =
        train exp rand st data { o with errorThresh := none }) ∧
    (∀ exp rand st data (o : TrainOptions),
      train exp rand st data { o with logPeriod := some 0 } =
        train exp rand st data { o with logPeriod := none }) ∧
    (∀ exp rand st data (o : TrainOptions),
      train exp rand st data { o with callbackPeriod := some 0 } =
        train exp rand st data { o with callbackPeriod := none }) ∧
    (∀ exp rand st data (o : TrainOptions),
      train exp rand st data { o with learningRate := some 0 } =
        train exp rand st data { o with learningRate := none }) ∧
    (∀ o : CtorOptions,
      mkNetwork { o with learningRate := some 0 } =
        mkNetwork { o with learningRate := none }) ∧
    (∀ o : CtorOptions,
      mkNetwork { o with momentum := some 0 } =
        mkNetwork { o with momentum := none }) ∧
    (∀ o : CtorOptions,
      mkNetwork { o with binaryThresh := some 0 } =
        mkNetwork { o with binaryThresh := none }) ∧
    jsOrN (some 0) 20000 = 20000 ∧
    jsOrN (some 0) 10 = jsOrN none 10 ∧
    (mkNetwork { learningRate := some 0 }).learningRate = 3/10 := by
    refine ⟨?_, ?_, ?_, ?_, ?_, ?_, ?_, ?_, ?_, ?_, ?_⟩ <;>
      intros <;> simp [train, mkNetwork, jsOrN, jsOrQ, jsOr]

/-- C2 counterexample: `test` classifies with a STRICT comparison
(`output[0] > this.binaryThresh ? 1 : 0`, line 313), so an activation
exactly equal to the binary threshold is classified `0`, not `1`.  On the
concrete network whose only activation is `1/2` = the default threshold,
with target `1`, the claim predicts `actual = 1 = expected` (no
misclassification, one true positive); the code records `actual = 0`: a
misclassification and a false negative. -/
theorem C2_threshold_tie_counterexample :
    getQ ((runInput constOne netHalf [0]).2) 0 = netHalf.binaryThresh ∧
    (test constOne netHalf [([0], [1])]).misclasses = [⟨[0], [1], 0, 1⟩] ∧
    (test constOne netHalf [([0], [1])]).falseNeg = 1 ∧
    (test constOne netHalf [([0], [1])]).truePos = 0 := by
  norm_num [test, testLoop, testStep, testActualQ, testExpected, runInput, act,
    layerForward, nodeSum, sigmoid, getQ, getV, getM, NNState.outLayer, netHalf,
    constOne, mse, errVec, List.range_succ]

/-- C2 (amended): for a dataset whose output width is exactly 1, `test`
classifies each example's actual label as `1` if the single output
activation is STRICTLY GREATER than the binary threshold and `0`
otherwise; in particular an activation exactly equal to the threshold is
classified as `0`.  The misclassification list and the confusion counts
it returns are exactly the ones induced by that rule. -/
theorem C2_binary_threshold_strict (exp : ℚ → ℚ) (st : NNState)
    (data : List (Vec × Vec)) (h1 : (data.headD ([], [])).2.length = 1) :
    (∀ v : Vec, testActualQ st true v =
      if st.binaryThresh < getQ v 0 then 1 else 0) ∧
    (∀ v : Vec, getQ v 0 = st.binaryThresh → testActualQ st true v = 0) ∧
    (test exp st data).misclasses = data.filterMap (testMisFn exp st true) ∧
    (test exp st data).truePos = data.countP (fun d =>
      decide (classifyActual exp st true d = 1 ∧ classifyExpected true d = 1)) ∧
    (test exp st data).trueNeg = data.countP (fun d =>
      decide (classifyActual exp st true d = 0 ∧ classifyExpected true d = 0)) ∧
    (test exp st data).falseNeg = data.countP (fun d =>
      decide (classifyActual exp st true d = 0 ∧ classifyExpected true d = 1)) ∧
    (test exp st data).falsePos = data.countP (fun d =>
      decide (classifyActual exp st true d = 1 ∧ classifyExpected true d = 0)) := by
  have hActual : ∀ v : Vec, testActualQ st true v =
      if st.binaryThresh < getQ v 0 then 1 else 0 := by
    intro v
    simp [testActualQ]
  refine ⟨hActual, ?_, ?_, ?_, ?_, ?_, ?_⟩
  · intro v hv
    rw [hActual v, if_neg (by rw [hv]; exact lt_irrefl _)]
  · rw [test]
    simp only [h1]
    rw [testLoop_misclasses]
    simp
  · rw [test]
    simp only [h1]
    rw [testLoop_truePos]
    simp
  · rw [test]
    simp only [h1]
    rw [testLoop_trueNeg]
    simp
  · rw [test]
    simp only [h1]
    rw [testLoop_falseNeg]
    simp
  · rw [test]
    simp only [h1]
    rw [testLoop_falsePos]
    simp

/-- Witness for the amended C2 at a concrete binary dataset. -/
theorem C2_binary_threshold_strict_witness :
    (test constOne netHalf [([0], [1])]).falseNeg =
      List.countP (fun d => decide (classifyActual constOne netHalf true d = 0 ∧
        classifyExpected true d = 1)) [([0], [1])] :=
  (C2_binary_threshold_strict constOne netHalf [([0], [1])]
    (by decide)).2.2.2.2.2.1

/-- The state of a freshly initialized `[1, 1]` network drawn from the
all-zeros random source: bias `-1/5`, weight `-1/5`. -/
def netC3 : NNState := initNet rZero [1, 1] false (mkNetwork {})

/-- C3: re-running `initialize` with `keepNetworkIntact = true` on the same
topology preserves the weight matrices and reallocates the scratch buffers
(deltas, errors, momentum changes) — but, contrary to the claim, it does
NOT preserve the bias vectors: line 61 (`this.biases[layer] =
randos(size)`) runs unconditionally, so every bias is re-randomized (here
`-1/5` becomes `1/5`). -/
theorem C3_keepNetworkIntact_rerandomizes_biases :
    (initNet rOne [1, 1] true netC3).weights = netC3.weights ∧
    (initNet rOne [1, 1] true netC3).outputs = netC3.outputs ∧
    (initNet rOne [1, 1] true netC3).deltas = [[0], [0]] ∧
    (initNet rOne [1, 1] true netC3).errors = [[0], [0]] ∧
    (initNet rOne [1, 1] true netC3).changes = [[], [[0]]] ∧
    netC3.biases = [[], [-(1/5)]] ∧
    (initNet rOne [1, 1] true netC3).biases = [[], [1/5]] := by
  norm_num [netC3, initNet, mkNetwork, randosFrom, randomWeight, consumedBefore,
    layerConsume, zerosV, rZero, rOne, getV, jsOrQ, jsOr, List.range_succ]

/-- C4 counterexample: `initialize` performs no validation whatsoever.
Called with the single-layer topology `[1]` it does not fail or reject: it
happily stores the sizes and allocates the scratch buffers, producing a
degenerate network with no weight matrices and no biases. -/
theorem C4_short_topology_accepted :
    (initNet rZero [1] false (mkNetwork {})).sizes = [1] ∧
    (initNet rZero [1] false (mkNetwork {})).deltas = [[0]] ∧
    (initNet rZero [1] false (mkNetwork {})).errors = [[0]] ∧
    (initNet rZero [1] false (mkNetwork {})).outputs = [[0]] ∧
    getM (initNet rZero [1] false (mkNetwork {})).weights 1 = [] ∧
    getV (initNet rZero [1] false (mkNetwork {})).biases 1 = [] := by
  norm_num [initNet, mkNetwork, zerosV, getM, getV, jsOrQ, jsOr, List.range_succ]

/-- C4 (amended): `initialize` never fails: given a topology with fewer
than two layer sizes it still constructs the (degenerate) network —
recording the sizes, allocating the scratch buffers, and creating no
weight matrices or bias vectors — rather than rejecting. -/
theorem C4_initialize_accepts_degenerate (rand : ℕ → ℚ) (st : NNState) (s : ℕ) :
    (initNet rand [s] false st).sizes = [s] ∧
    (initNet rand [s] false st).deltas = [zerosV s] ∧
    (initNet rand [s] false st).errors = [zerosV s] ∧
    (∀ l, 1 ≤ l → getM (initNet rand [s] false st).weights l = []) ∧
    (∀ l, 1 ≤ l → getV (initNet rand [s] false st).biases l = []) ∧
    (initNet rand [] false st).sizes = [] ∧
    (initNet rand [] false st).weights = [] := by
  have hw : (initNet rand [s] false st).weights = [[]] := by
    norm_num [initNet, List.range_succ]
  have hb : (initNet rand [s] false st).biases = [[]] := by
    norm_num [initNet, List.range_succ]
  refine ⟨rfl, ?_, ?_, ?_, ?_, rfl, ?_⟩
  · norm_num [initNet, List.range_succ]
  · norm_num [initNet, List.range_succ]
  · intro l hl
    rw [getM, hw]
    exact List.getD_eq_default _ _ (by simpa using hl)
  · intro l hl
    rw [getV, hb]
    exact List.getD_eq_default _ _ (by simpa using hl)
  · norm_num [initNet]

/-- Witness for the amended C4 at the concrete topology `[1]`. -/
theorem C4_initialize_accepts_degenerate_witness :
    getM (initNet rZero [1] false (mkNetwork {})).weights 1 = [] :=
  (C4_initialize_accepts_degenerate rZero (mkNetwork {}) 1).2.2.2.1 1 (by decide)

/-- C5: for an initialized network, the forward pass sets the layer-0
activation to the input, computes for each layer `l ≥ 1` and unit `j` the
activation `sigmoid(bias[l][j] + Σ_k weight[l][j][k] * activation[l-1][k])`
with `sigmoid(x) = 1/(1+exp(-x))`, and returns the final layer's
activation vector. -/
theorem C5_forward_formula (exp : ℚ → ℚ) (st : NNState) (input : Vec)
    (l j : ℕ) (h0 : 0 < st.sizes.length) (hl1 : 1 ≤ l)
    (hlL : l < st.sizes.length) (hj : j < st.sizes.getD l 0)
    (hrow : (getV (getM st.weights l) j).length = st.sizes.getD (l - 1) 0) :
    (∀ x, sigmoid exp x = 1 / (1 + exp (-x))) ∧
    getV (runInput exp st input).1.outputs 0 = input ∧
    (runInput exp st input).2 = getV (runInput exp st input).1.outputs st.outLayer ∧
    getQ (getV (runInput exp st input).1.outputs l) j =
      sigmoid exp (getQ (getV st.biases l) j +
        ∑ k ∈ Finset.range (st.sizes.getD (l - 1) 0),
          getQ (getV (getM st.weights l) j) k *
            getQ (getV (runInput exp st input).1.outputs (l - 1)) k) := by
  have houts : ∀ m, m < st.sizes.length →
      getV (runInput exp st input).1.outputs m = act exp st input m := by
    intro m hm
    exact getV_map_range (act exp st input) hm
  have hout : st.outLayer < st.sizes.length := by
    unfold NNState.outLayer; omega
  refine ⟨fun _ => rfl, ?_, ?_, ?_⟩
  · rw [houts 0 h0]; rfl
  · rw [houts st.outLayer hout]; rfl
  · rw [houts l hlL, houts (l - 1) (by omega)]
    obtain ⟨m, rfl⟩ : ∃ m, l = m + 1 := ⟨l - 1, by omega⟩
    simp only [Nat.add_sub_cancel] at hrow ⊢
    show getQ (layerForward exp st (m + 1) (act exp st input m)) j = _
    rw [layerForward, getQ_map_range _ hj]
    congr 1
    rw [nodeSum,
      foldl_add_range (fun k => getQ (getV (getM st.weights (m + 1)) j) k *
        getQ (act exp st input m) k), hrow]

/-- Witness for C5 on a concrete one-hidden-unit network. -/
theorem C5_forward_formula_witness :
    getQ (getV (runInput constOne netHalf [0]).1.outputs 1) 0 =
      sigmoid constOne (getQ (getV netHalf.biases 1) 0 +
        ∑ k ∈ Finset.range (netHalf.sizes.getD 0 0),
          getQ (getV (getM netHalf.weights 1) 0) k *
            getQ (getV (runInput constOne netHalf [0]).1.outputs 0) k) :=
  (C5_forward_formula constOne netHalf [0] 1 0 (by decide) (by decide) (by decide)
    (by decide) (by decide)).2.2.2

lemma sigmoid_bounds (exp : ℚ → ℚ) (hexp : ∀ x, 0 < exp x) (x : ℚ) :
    0 < sigmoid exp x ∧ sigmoid exp x < 1 := by
  have h1 : 0 < exp (-x) := hexp (-x)
  have h2 : (0:ℚ) < 1 + exp (-x) := by linarith
  constructor
  · exact div_pos one_pos h2
  · rw [sigmoid, div_lt_one h2]; linarith

/-- C6: on a valid topology the forward pass returns a vector of width
`sizes[outputLayer]`, the stored activations are exactly the `act` layers,
and every computed activation of a layer `l ≥ 1` lies strictly between 0
and 1, provided the exponential is positive (as the real `Math.exp` is)
— for any input. -/
theorem C6_output_width_and_range (exp : ℚ → ℚ) (st : NNState) (input : Vec)
    (hexp : ∀ x, 0 < exp x) (hlen : 2 ≤ st.sizes.length) :
    ((runInput exp st input).2).length = st.sizes.getD st.outLayer 0 ∧
    (∀ m, m < st.sizes.length →
      getV (runInput exp st input).1.outputs m = act exp st input m) ∧
    ∀ l j, 1 ≤ l → j < st.sizes.getD l 0 →
      0 < getQ (act exp st input l) j ∧ getQ (act exp st input l) j < 1 := by
  refine ⟨?_, ?_, ?_⟩
  · show (act exp st input st.outLayer).length = _
    obtain ⟨m, hm⟩ : ∃ m, st.outLayer = m + 1 :=
      ⟨st.sizes.length - 2, by unfold NNState.outLayer; omega⟩
    rw [hm]
    show (layerForward exp st (m + 1) (act exp st input m)).length = _
    rw [layerForward, List.length_map, List.length_range]
  · intro m hm
    exact getV_map_range (act exp st input) hm
  · intro l j hl1 hj
    obtain ⟨m, rfl⟩ : ∃ m, l = m + 1 := ⟨l - 1, by omega⟩
    show 0 < getQ (layerForward exp st (m + 1) (act exp st input m)) j ∧
      getQ (layerForward exp st (m + 1) (act exp st input m)) j < 1
    rw [layerForward, getQ_map_range _ hj]
    exact sigmoid_bounds exp hexp _

/-- Witness for C6 on a concrete network with a positive exponential. -/
theorem C6_output_width_and_range_witness :
    ((runInput constOne netHalf [0]).2).length =
      netHalf.sizes.getD netHalf.outLayer 0 :=
  (C6_output_width_and_range constOne netHalf [0] (fun _ => one_pos) (by decide)).1

lemma edPass_snd_length (st : NNState) (target : Vec) (d : ℕ) :
    ((edPass st target d).2).length = st.sizes.getD (st.outLayer - d) 0 := by
  cases d <;> simp [edPass]

lemma calculateDeltas_errors_at (st : NNState) (target : Vec) {l : ℕ}
    (hl : l < st.sizes.length) :
    getV (calculateDeltas st target).errors l =
      (edPass st target (st.outLayer - l)).1 :=
  getV_map_range (fun l => (edPass st target (st.outLayer - l)).1) hl

lemma calculateDeltas_deltas_at (st : NNState) (target : Vec) {l : ℕ}
    (hl : l < st.sizes.length) :
    getV (calculateDeltas st target).deltas l =
      (edPass st target (st.outLayer - l)).2 :=
  getV_map_range (fun l => (edPass st target (st.outLayer - l)).2) hl

lemma edPass_top_errors (st : NNState) (target : Vec) {j : ℕ}
    (hj : j < st.sizes.getD st.outLayer 0) :
    getQ (edPass st target 0).1 j =
      getQ target j - getQ (getV st.outputs st.outLayer) j := by
  show getQ ((List.range (st.sizes.getD st.outLayer 0)).map _) j = _
  rw [getQ_map_range _ hj]

lemma edPass_inner_errors (st : NNState) (target : Vec) {l j : ℕ}
    (hlL : l < st.outLayer) (hj : j < st.sizes.getD l 0) :
    getQ (edPass st target (st.outLayer - l)).1 j =
      ∑ k ∈ Finset.range (st.sizes.getD (l + 1) 0),
        getQ (edPass st target (st.outLayer - (l + 1))).2 k *
          getQ (getV (getM st.weights (l + 1)) k) j := by
  have hd : st.outLayer - l = (st.outLayer - (l + 1)) + 1 := by omega
  have hl' : st.outLayer - ((st.outLayer - (l + 1)) + 1) = l := by omega
  rw [hd]
  show getQ ((edPass st target ((st.outLayer - (l + 1)) + 1)).1) j = _
  simp only [edPass, hl']
  rw [getQ_map_range _ hj,
    foldl_add_range (fun k => getQ (edPass st target (st.outLayer - (l + 1))).2 k *
      getQ (getV (getM st.weights (l + 1)) k) j), zero_add,
    edPass_snd_length,
    show st.outLayer - (st.outLayer - (l + 1)) = l + 1 by omega]

lemma edPass_deltas_eq (st : NNState) (target : Vec) (d : ℕ) {j : ℕ}
    (hj : j < st.sizes.getD (st.outLayer - d) 0) :
    getQ (edPass st target d).2 j =
      getQ (edPass st target d).1 j * getQ (getV st.outputs (st.outLayer - d)) j *
        (1 - getQ (getV st.outputs (st.outLayer - d)) j) := by
  cases d with
  | zero =>
    simp only [Nat.sub_zero] at hj ⊢
    show getQ ((List.range (st.sizes.getD st.outLayer 0)).map _) j = _
    rw [getQ_map_range _ hj]
    rfl
  | succ d' =>
    simp only [edPass]
    rw [getQ_map_range _ hj]

lemma edPass_deltas_at_layer (st : NNState) (target : Vec) {l j : ℕ}
    (hl : l ≤ st.outLayer) (hj : j < st.sizes.getD l 0) :
    getQ (edPass st target (st.outLayer - l)).2 j =
      getQ (edPass st target (st.outLayer - l)).1 j * getQ (getV st.outputs l) j *
        (1 - getQ (getV st.outputs l) j) := by
  have hsub : st.outLayer - (st.outLayer - l) = l := by omega
  have h := edPass_deltas_eq st target (st.outLayer - l) (j := j)
  rw [hsub] at h
  exact h hj

/-- C7: immediately after a forward pass, the backward error/delta pass
computes, at the output layer, `error[j] = target[j] - activation[L][j]`;
at every interior layer `l < L`, `error[j] = Σ_k delta[l+1][k] *
weight[l+1][k][j]`; and at every layer `delta[l][j] = error[l][j] *
activation[l][j] * (1 - activation[l][j])`; and the per-example training
step returns the mean squared error `(1/n) Σ e_i²` of the output layer's
error vector. -/
theorem C7_backprop_and_mse (exp : ℚ → ℚ) (st : NNState) (input target : Vec)
    (lrOpt : Option ℚ) (hlen : 0 < st.sizes.length) :
    (∀ j, j < st.sizes.getD st.outLayer 0 →
      getQ (getV (calculateDeltas (runInput exp st input).1 target).errors
          st.outLayer) j =
        getQ target j -
          getQ (getV (runInput exp st input).1.outputs st.outLayer) j) ∧
    (∀ l j, l < st.outLayer → j < st.sizes.getD l 0 →
      getQ (getV (calculateDeltas (runInput exp st input).1 target).errors l) j =
        ∑ k ∈ Finset.range (st.sizes.getD (l + 1) 0),
          getQ (getV (calculateDeltas (runInput exp st input).1 target).deltas
              (l + 1)) k *
            getQ (getV (getM st.weights (l + 1)) k) j) ∧
    (∀ l j, l < st.sizes.length → j < st.sizes.getD l 0 →
      getQ (getV (calculateDeltas (runInput exp st input).1 target).deltas l) j =
        getQ (getV (calculateDeltas (runInput exp st input).1 target).errors l) j *
          getQ (getV (runInput exp st input).1.outputs l) j *
            (1 - getQ (getV (runInput exp st input).1.outputs l) j)) ∧
    (trainPattern exp st input target lrOpt).2 =
      mse (getV (calculateDeltas (runInput exp st input).1 target).errors
        st.outLayer) ∧
    (∀ v : Vec, mse v =
      (∑ i ∈ Finset.range v.length, getQ v i ^ 2) / v.length) := by
  have hout : st.outLayer < st.sizes.length := by
    unfold NNState.outLayer; omega
  refine ⟨?_, ?_, ?_, rfl, ?_⟩
  · intro j hj
    rw [calculateDeltas_errors_at (runInput exp st input).1 target
      (l := st.outLayer) hout]
    show getQ (edPass (runInput exp st input).1 target
      (st.outLayer - st.outLayer)).1 j = _
    rw [Nat.sub_self]
    exact edPass_top_errors (runInput exp st input).1 target hj
  · intro l j hl hj
    have hl1 : l < st.sizes.length := by
      unfold NNState.outLayer at hl; omega
    have hl2 : l + 1 < st.sizes.length := by
      unfold NNState.outLayer at hl; omega
    rw [calculateDeltas_errors_at (runInput exp st input).1 target (l := l) hl1,
      calculateDeltas_deltas_at (runInput exp st input).1 target (l := l + 1) hl2]
    exact edPass_inner_errors (runInput exp st input).1 target hl hj
  · intro l j hl hj
    rw [calculateDeltas_errors_at (runInput exp st input).1 target (l := l) hl,
      calculateDeltas_deltas_at (runInput exp st input).1 target (l := l) hl]
    have hle : l ≤ st.outLayer := by unfold NNState.outLayer; omega
    exact edPass_deltas_at_layer (runInput exp st input).1 target hle hj
  · intro v
    rw [mse, foldl_add_range (fun i => getQ v i ^ 2), zero_add]

/-- Witness for C7 at the output layer of a concrete network. -/
theorem C7_backprop_and_mse_witness :
    getQ (getV (calculateDeltas (runInput constOne netHalf [0]).1 [1]).errors
        netHalf.outLayer) 0 =
      getQ [1] 0 -
        getQ (getV (runInput constOne netHalf [0]).1.outputs netHalf.outLayer) 0 :=
  (C7_backprop_and_mse constOne netHalf [0] [1] none (by decide)).1 0 (by decide)

lemma getV_overwrite_map_range (old : List Vec) (f : ℕ → Vec) {n j : ℕ}
    (hj : j < n) :
    getV (overwriteL old ((List.range n).map f)) j = f j := by
  rw [getV, getD_overwriteL _ _ _ (by simpa using hj), getD_map_range _ _ hj]

lemma getQ_overwrite_map_range (old : Vec) (f : ℕ → ℚ) {n k : ℕ}
    (hk : k < n) :
    getQ (overwriteL old ((List.range n).map f)) k = f k := by
  rw [getQ, getD_overwriteL _ _ _ (by simpa using hk), getD_map_range _ _ hk]

lemma getQ_changeRow (momentum lr delta : ℚ) (incoming oldRow : Vec) {k : ℕ}
    (hk : k < incoming.length) :
    getQ (changeRow momentum lr delta incoming oldRow) k =
      lr * delta * getQ incoming k + momentum * getQ oldRow k := by
  rw [changeRow, getQ_map_range _ hk]

/-- The concrete state used by the C8 witness: one input, one output,
nonzero scratch values everywhere so that the update formula is exercised
with nontrivial momentum. -/
def netC8 : NNState :=
  { sizes := [1, 1], weights := [[], [[2]]], biases := [[], [3]],
    outputs := [[5], [7]], deltas := [[0], [11]], changes := [[], [[13]]] }

/-- C8: the weight-update pass applies, for every layer `l ≥ 1`, unit `j`,
and incoming index `k`, the change `learningRate * delta[l][j] *
activation[l-1][k] + momentum * previousChange[l][j][k]`; the change is
stored as the new `previousChange[l][j][k]` and added to
`weight[l][j][k]`; `bias[l][j]` is incremented by `learningRate *
delta[l][j]`; the per-example step hands its stored changes to the next
(nothing resets them), and only `initialize` resets them to zero. -/
theorem C8_weight_update_momentum (st : NNState) (lr : ℚ) (l j k : ℕ)
    (hl1 : 1 ≤ l) (hlL : l < st.sizes.length) (hj : j < st.sizes.getD l 0)
    (hk : k < (getV st.outputs (l - 1)).length) :
    getQ (getV (getM (adjustWeights st lr).changes l) j) k =
      lr * getQ (getV st.deltas l) j * getQ (getV st.outputs (l - 1)) k +
        st.momentum * getQ (getV (getM st.changes l) j) k ∧
    getQ (getV (getM (adjustWeights st lr).weights l) j) k =
      getQ (getV (getM st.weights l) j) k +
        (lr * getQ (getV st.deltas l) j * getQ (getV st.outputs (l - 1)) k +
          st.momentum * getQ (getV (getM st.changes l) j) k) ∧
    getQ (getV (adjustWeights st lr).biases l) j =
      getQ (getV st.biases l) j + lr * getQ (getV st.deltas l) j ∧
    (∀ exp input target lrOpt,
      (trainPattern exp st input target lrOpt).1.changes =
        (adjustWeights (calculateDeltas (runInput exp st input).1 target)
          (match lrOpt with
           | none => st.learningRate
           | some v => jsOr v st.learningRate)).changes) ∧
    (∀ rand szs keep st0 l', 1 ≤ l' → l' < szs.length →
      getM (initNet rand szs keep st0).changes l' =
        (List.range (szs.getD l' 0)).map (fun _ =>
          zerosV (szs.getD (l' - 1) 0))) := by
  refine ⟨?_, ?_, ?_, fun exp input target lrOpt => rfl, ?_⟩
  · simp only [adjustWeights]
    rw [getM_map_range _ hlL, if_pos hl1, getV_overwrite_map_range _ _ hj,
      changeRow, getQ_overwrite_map_range _ _ hk]
  · simp only [adjustWeights]
    rw [getM_map_range _ hlL, if_pos hl1, getV_overwrite_map_range _ _ hj,
      getQ_overwrite_map_range _ _ hk, getQ_changeRow _ _ _ _ _ hk]
  · simp only [adjustWeights]
    rw [getV_map_range _ hlL, if_pos hl1, getQ_overwrite_map_range _ _ hj]
  · intro rand szs keep st0 l' h1 h2
    simp only [initNet]
    rw [getM_map_range _ h2, if_neg (by omega)]

/-- Witness for C8 on a concrete state with nonzero delta/activation/
previous change. -/
theorem C8_weight_update_momentum_witness :
    getQ (getV (getM (adjustWeights netC8 (1/2)).changes 1) 0) 0 =
      1/2 * getQ (getV netC8.deltas 1) 0 * getQ (getV netC8.outputs 0) 0 +
        netC8.momentum * getQ (getV (getM netC8.changes 1) 0) 0 :=
  (C8_weight_update_momentum netC8 (1/2) 1 0 0 (by decide) (by decide)
    (by decide) (by decide)).1

lemma trainLoop_invariant (exp : ℚ → ℚ) (data : List (Vec × Vec))
    (lr thresh : ℚ) (st0 : NNState) :
    ∀ (fuel k : ℕ), ∃ n,
      trainLoop exp data lr thresh fuel k (runEpochs exp data lr st0 k).2
          (runEpochs exp data lr st0 k).1 =
        ((runEpochs exp data lr st0 n).1, (runEpochs exp data lr st0 n).2, n) ∧
      k ≤ n ∧ n ≤ k + fuel ∧
      (n < k + fuel → (runEpochs exp data lr st0 n).2 ≤ thresh) ∧
      (∀ m, k ≤ m → m < n → thresh < (runEpochs exp data lr st0 m).2)
  | 0, k =>
    ⟨k, rfl, le_refl k, by omega, fun h => absurd h (by omega), by omega⟩
  | fuel + 1, k => by
    simp only [trainLoop]
    by_cases hc : thresh < (runEpochs exp data lr st0 k).2
    · rw [if_pos hc]
      have hrec : epoch exp data lr (runEpochs exp data lr st0 k).1 =
          runEpochs exp data lr st0 (k + 1) := rfl
      rw [hrec]
      obtain ⟨n, heq, h1, h2, h3, h4⟩ :=
        trainLoop_invariant exp data lr thresh st0 fuel (k + 1)
      refine ⟨n, heq, by omega, by omega, fun h => h3 (by omega), ?_⟩
      intro m hm1 hm2
      rcases Nat.eq_or_lt_of_le hm1 with h | h
      · rw [← h]; exact hc
      · exact h4 m h hm2
    · rw [if_neg hc]
      exact ⟨k, rfl, le_refl k, by omega, fun _ => le_of_not_lt hc, by omega⟩

/-- C9: `train` always terminates: it runs at most `iterations` epochs
(option resolved through JS `||` against the default 20000), stops as soon
as an epoch's mean per-example MSE is at or below the error threshold
(default 1/200 = 0.005), and returns the last epoch's mean error together
with the number of epochs actually run; every epoch before the stopping
point had error strictly above the threshold. -/
theorem C9_train_terminates (exp : ℚ → ℚ) (rand : ℕ → ℚ) (st : NNState)
    (data : List (Vec × Vec)) (o : TrainOptions) :
    (train exp rand st data o).2.2 ≤ jsOrN o.iterations 20000 ∧
    ((train exp rand st data o).2.2 < jsOrN o.iterations 20000 →
      (train exp rand st data o).2.1 ≤ jsOrQ o.errorThresh (1/200)) ∧
    (train exp rand st data o).2.1 =
      (runEpochs exp data (jsOrQ o.learningRate (jsOr st.learningRate (3/10)))
        (initNet rand (trainSizes st data) o.keepNetworkIntact st)
        (train exp rand st data o).2.2).2 ∧
    (train exp rand st data o).1 =
      (runEpochs exp data (jsOrQ o.learningRate (jsOr st.learningRate (3/10)))
        (initNet rand (trainSizes st data) o.keepNetworkIntact st)
        (train exp rand st data o).2.2).1 ∧
    (∀ m, m < (train exp rand st data o).2.2 →
      jsOrQ o.errorThresh (1/200) <
        (runEpochs exp data (jsOrQ o.learningRate (jsOr st.learningRate (3/10)))
          (initNet rand (trainSizes st data) o.keepNetworkIntact st) m).2) := by
  have htr : train exp rand st data o =
      trainLoop exp data (jsOrQ o.learningRate (jsOr st.learningRate (3/10)))
        (jsOrQ o.errorThresh (1/200)) (jsOrN o.iterations 20000) 0 1
        (initNet rand (trainSizes st data) o.keepNetworkIntact st) := rfl
  obtain ⟨n, heq, h1, h2, h3, h4⟩ := trainLoop_invariant exp data
    (jsOrQ o.learningRate (jsOr st.learningRate (3/10)))
    (jsOrQ o.errorThresh (1/200))
    (initNet rand (trainSizes st data) o.keepNetworkIntact st)
    (jsOrN o.iterations 20000) 0
  simp only [runEpochs] at heq
  have hiter : (train exp rand st data o).2.2 = n := by rw [htr, heq]
  have herr : (train exp rand st data o).2.1 =
      (runEpochs exp data (jsOrQ o.learningRate (jsOr st.learningRate (3/10)))
        (initNet rand (trainSizes st data) o.keepNetworkIntact st) n).2 := by
    rw [htr, heq]
  have hst : (train exp rand st data o).1 =
      (runEpochs exp data (jsOrQ o.learningRate (jsOr st.learningRate (3/10)))
        (initNet rand (trainSizes st data) o.keepNetworkIntact st) n).1 := by
    rw [htr, heq]
  refine ⟨?_, ?_, ?_, ?_, ?_⟩
  · rw [hiter]; omega
  · rw [hiter, herr]; intro h; exact h3 (by omega)
  · rw [herr, hiter]
  · rw [hst, hiter]
  · rw [hiter]; intro m hm; exact h4 m (by omega) hm

/-- Witness for C9: with `iterations: 1` on a one-example dataset the loop
runs at most one epoch. -/
theorem C9_train_terminates_witness :
    (train constOne rZero (mkNetwork {}) [([0], [0])]
      { iterations := some 1 }).2.2 ≤ jsOrN (some 1) 20000 :=
  (C9_train_terminates constOne rZero (mkNetwork {}) [([0], [0])]
    { iterations := some 1 }).1

lemma toJSON_layers_length (st : NNState) :
    (toJSON st).layers.length = st.outLayer + 1 := by
  simp [toJSON]

lemma toJSON_layerAt (st : NNState) {i : ℕ} (hi : i < st.outLayer + 1) :
    (toJSON st).layers.getD i [] = jsonLayerOf st i := by
  simp only [toJSON]
  exact getD_map_range _ _ hi

lemma jsonLayerOf_length (st : NNState) (l : ℕ) :
    (jsonLayerOf st l).length = (nodeIds st l).length := by
  simp [jsonLayerOf]

lemma nodeIds_length (st : NNState) (h : WFNet st) (l : ℕ) :
    (nodeIds st l).length = st.sizes.getD l 0 := by
  obtain ⟨⟨hlen, _, _, _⟩, _, hin, hout⟩ := h
  rw [nodeIds]
  split_ifs with h1 h2
  · obtain ⟨h10, h1s⟩ := h1
    obtain ⟨keys, hks⟩ := Option.isSome_iff_exists.mp h1s
    rw [hks] at hin ⊢
    rw [Option.getD_some, List.length_map, h10]
    exact hin.1
  · obtain ⟨hL, h2s⟩ := h2
    obtain ⟨keys, hks⟩ := Option.isSome_iff_exists.mp h2s
    rw [hks] at hout ⊢
    rw [Option.getD_some, List.length_map, hL]
    exact hout.1
  · simp

lemma roundtrip_sizes_len (st : NNState) (hlen : 1 ≤ st.sizes.length) :
    (fromJSON st (toJSON st)).sizes.length = st.sizes.length := by
  simp only [fromJSON]
  rw [List.length_map, List.length_range, toJSON_layers_length]
  unfold NNState.outLayer
  omega

lemma roundtrip_sizes_getD (st : NNState) (h : WFNet st) (l : ℕ) :
    (fromJSON st (toJSON st)).sizes.getD l 0 = st.sizes.getD l 0 := by
  have hlen2 : 2 ≤ st.sizes.length := h.1.1
  by_cases hl : l < st.sizes.length
  · have hi : l < st.outLayer + 1 := by unfold NNState.outLayer; omega
    simp only [fromJSON]
    rw [getD_map_range _ _ (show l < (toJSON st).layers.length by
      rw [toJSON_layers_length]; exact hi)]
    rw [toJSON_layerAt st hi, jsonLayerOf_length, nodeIds_length st h l]
  · rw [List.getD_eq_default _ _ (show st.sizes.length ≤ l by omega),
      List.getD_eq_default]
    rw [roundtrip_sizes_len st (by omega)]
    omega

lemma roundtrip_biases (st : NNState) (h : WFNet st) (l : ℕ) (hl1 : 1 ≤ l) :
    getV (fromJSON st (toJSON st)).biases l = getV st.biases l := by
  obtain ⟨⟨hlen, hblen, hwlen, hdims⟩, hpos, hin, hout⟩ := h
  by_cases hl : l < st.sizes.length
  · have hi : l < st.outLayer + 1 := by unfold NNState.outLayer; omega
    simp only [fromJSON]
    rw [getV_map_range _ (show l < (toJSON st).layers.length by
      rw [toJSON_layers_length]; exact hi)]
    rw [toJSON_layerAt st hi, jsonLayerOf, List.map_map]
    have hpt : ∀ j ∈ List.range (nodeIds st l).length,
        ((fun p : Key × JsonNode => (p.2.bias).getD 0) ∘ (fun j =>
          ((nodeIds st l).getD j (Key.num 0), jsonNodeOf st l j))) j =
          (getV st.biases l).getD j 0 := by
      intro j _
      show ((jsonNodeOf st l j).bias).getD 0 = _
      rw [jsonNodeOf, if_neg (by omega)]
      rfl
    rw [List.map_eq_map_iff.mpr hpt, nodeIds_length st
      ⟨⟨hlen, hblen, hwlen, hdims⟩, hpos, hin, hout⟩ l]
    rw [show st.sizes.getD l 0 = (getV st.biases l).length from
      ((hdims l hl hl1).1).symm]
    exact map_range_getD 0 (getV st.biases l)
  · rw [getV, getV, List.getD_eq_default, List.getD_eq_default]
    · rw [hblen]; omega
    · simp only [fromJSON]
      rw [List.length_map, List.length_range, toJSON_layers_length]
      unfold NNState.outLayer
      omega

lemma roundtrip_weight_row (st : NNState) (h : WFNet st) {l j : ℕ} (hl1 : 1 ≤ l)
    (hl : l < st.sizes.length) (hj : j < st.sizes.getD l 0) :
    (nodeIds st (l - 1)).map (fun k => jsonWeightVal st l j k) =
      getV (getM st.weights l) j := by
  obtain ⟨⟨hlen, hblen, hwlen, hdims⟩, hpos, hin, hout⟩ := h
  have hrow : (getV (getM st.weights l) j).length = st.sizes.getD (l - 1) 0 :=
    (hdims l hl hl1).2.2 j hj
  by_cases hcase : l = 1 ∧ st.inputLookup.isSome = true
  · obtain ⟨hl1', hsome⟩ := hcase
    obtain ⟨keys, hks⟩ := Option.isSome_iff_exists.mp hsome
    subst hl1'
    have hOK := hin
    rw [hks] at hOK
    rw [show (1:ℕ) - 1 = 0 from rfl]
    rw [nodeIds,
      if_pos (⟨rfl, by rw [hks]; rfl⟩ : ((0:ℕ) = 0 ∧ st.inputLookup.isSome = true)),
      hks, Option.getD_some, List.map_map]
    have hpt : ∀ s ∈ keys,
        ((fun k => jsonWeightVal st 1 j k) ∘ Key.str) s =
          (getV (getM st.weights 1) j).getD (keys.indexOf s) 0 := by
      intro s _
      show jsonWeightVal st 1 j (Key.str s) = _
      rw [jsonWeightVal,
        if_pos (⟨rfl, by rw [hks]; rfl⟩ : ((1:ℕ) = 1 ∧ st.inputLookup.isSome = true)),
        hks, Option.getD_some]
      rfl
    rw [List.map_eq_map_iff.mpr hpt,
      map_indexOf_self keys (fun i => (getV (getM st.weights 1) j).getD i 0)
        hOK.2.1,
      show keys.length = (getV (getM st.weights 1) j).length by
        rw [hOK.1, ← hrow]]
    exact map_range_getD 0 _
  · have hn1 : ¬((l - 1 = 0) ∧ st.inputLookup.isSome = true) := by
      rintro ⟨hz, hsome⟩
      exact hcase ⟨by omega, hsome⟩
    have hn2 : ¬((l - 1 = st.outLayer) ∧ st.outputLookup.isSome = true) := by
      rintro ⟨hz, _⟩
      unfold NNState.outLayer at hz
      omega
    rw [nodeIds, if_neg hn1, if_neg hn2, List.map_map]
    have hpt : ∀ n ∈ List.range (st.sizes.getD (l - 1) 0),
        ((fun k => jsonWeightVal st l j k) ∘ Key.num) n =
          (getV (getM st.weights l) j).getD n 0 := by
      intro n _
      show jsonWeightVal st l j (Key.num n) = _
      rw [jsonWeightVal, if_neg hcase]
      rfl
    rw [List.map_eq_map_iff.mpr hpt, ← hrow]
    exact map_range_getD 0 _

lemma roundtrip_weights (st : NNState) (h : WFNet st) (l : ℕ) (hl1 : 1 ≤ l) :
    getM (fromJSON st (toJSON st)).weights l = getM st.weights l := by
  have hlen : 2 ≤ st.sizes.length := h.1.1
  have hwlen : st.weights.length = st.sizes.length := h.1.2.2.1
  by_cases hl : l < st.sizes.length
  · have hi : l < st.outLayer + 1 := by unfold NNState.outLayer; omega
    simp only [fromJSON]
    rw [getM_map_range _ (show l < (toJSON st).layers.length by
      rw [toJSON_layers_length]; exact hi)]
    rw [toJSON_layerAt st hi, jsonLayerOf, List.map_map]
    have hpt : ∀ j ∈ List.range (nodeIds st l).length,
        ((fun p : Key × JsonNode => p.2.weights.map Prod.snd) ∘ (fun j =>
          ((nodeIds st l).getD j (Key.num 0), jsonNodeOf st l j))) j =
          (getM st.weights l).getD j [] := by
      intro j hj
      rw [List.mem_range, nodeIds_length st h l] at hj
      show ((jsonNodeOf st l j).weights).map Prod.snd = _
      rw [jsonNodeOf, if_neg (by omega)]
      show ((nodeIds st (l - 1)).map (fun k => (k, jsonWeightVal st l j k))).map
        Prod.snd = _
      rw [List.map_map]
      exact roundtrip_weight_row st h hl1 hl hj
    rw [List.map_eq_map_iff.mpr hpt, nodeIds_length st h l]
    rw [show st.sizes.getD l 0 = (getM st.weights l).length from
      ((h.1.2.2.2 l hl hl1).2.1).symm]
    exact map_range_getD [] (getM st.weights l)
  · rw [getM, getM, List.getD_eq_default, List.getD_eq_default]
    · rw [hwlen]; omega
    · simp only [fromJSON]
      rw [List.length_map, List.length_range, toJSON_layers_length]
      unfold NNState.outLayer
      omega

lemma act_congr (exp : ℚ → ℚ) (st' st : NNState) (input : Vec)
    (hsz : ∀ l, 1 ≤ l → st'.sizes.getD l 0 = st.sizes.getD l 0)
    (hw : ∀ l, 1 ≤ l → getM st'.weights l = getM st.weights l)
    (hb : ∀ l, 1 ≤ l → getV st'.biases l = getV st.biases l) :
    ∀ l, act exp st' input l = act exp st input l := by
  intro l
  induction l with
  | zero => rfl
  | succ m ih =>
    show layerForward exp st' (m + 1) (act exp st' input m) =
      layerForward exp st (m + 1) (act exp st input m)
    rw [ih]
    unfold layerForward
    rw [hsz (m + 1) (by omega), hw (m + 1) (by omega), hb (m + 1) (by omega)]

/-- C1: for every network with loaded parameters (valid sizes, weights,
biases, and optional input/output lookup tables) and every input, the
network rebuilt by `fromJSON` from `toJSON`'s output produces exactly the
same forward-pass output as the original network. -/
theorem C1_serialization_roundtrip (exp : ℚ → ℚ) (st : NNState) (input : Vec)
    (h : WFNet st) :
    (runInput exp (fromJSON st (toJSON st)) input).2 =
      (runInput exp st input).2 := by
  have hlen2 : 2 ≤ st.sizes.length := h.1.1
  have hlen : (fromJSON st (toJSON st)).sizes.length = st.sizes.length :=
    roundtrip_sizes_len st (by omega)
  have hact : ∀ l, act exp (fromJSON st (toJSON st)) input l =
      act exp st input l :=
    act_congr exp _ st input (fun l _ => roundtrip_sizes_getD st h l)
      (fun l hl => roundtrip_weights st h l hl)
      (fun l hl => roundtrip_biases st h l hl)
  show act exp (fromJSON st (toJSON st)) input
    (fromJSON st (toJSON st)).outLayer = act exp st input st.outLayer
  rw [show (fromJSON st (toJSON st)).outLayer = st.outLayer by
    unfold NNState.outLayer; rw [hlen]]
  exact hact st.outLayer

/-- A concrete well-formed network with both lookup tables, exercising the
symbolic-key serialization path of the C1 witness. -/
def netC1 : NNState :=
  { sizes := [2, 2], biases := [[], [1/3, -(1/2)]],
    weights := [[], [[1/2, -(1/3)], [1/4, 1/5]]],
    inputLookup := some ["a", "b"], outputLookup := some ["up", "down"] }

/-- Witness for C1: the round-tripped concrete keyed network computes the
same forward output. -/
theorem C1_serialization_roundtrip_witness :
    WFNet netC1 ∧
    (runInput constOne (fromJSON netC1 (toJSON netC1)) [1, 2]).2 =
      (runInput constOne netC1 [1, 2]).2 :=
  ⟨by decide, C1_serialization_roundtrip constOne netC1 [1, 2] (by decide)⟩
